import Mathlib

/-!
# Verification of the `convert_cbz` batch CBZ converter

Shallow embedding of `src/main.go` (package `main`): content-type
classification (`isImageFile`), directory scanning (`analyzeDirectory`),
archive assembly (`convertToCBZ`, `addFileToZip`), job processing
(`processWorkItem`), the dispatcher (`getFolders`, work-item creation,
the worker loop) and the statistics report (`printFinalStats`).

Modelling conventions:
* machine integers are `Nat`/`Int`; byte values are `Nat` (each `< 256`);
* the platform path separator is fixed to `'/'` (the Unix build), so
  `filepath.ToSlash` is the map replacing the separator by `'/'` and
  `filepath.Join a b` is `a ++ "/" ++ b`;
* the filesystem is an association list from paths to file data; a path
  absent from the list cannot be opened (the model's only source of I/O
  errors on an individual file);
* the traversal performed by `filepath.WalkDir` is represented by the
  list of visits it produces (directory visit, file visit, or a visit
  that reports a traversal error, which the callback propagates);
* Go's concurrency (the buffered channel and the mutex-guarded counter
  updates in `ConversionStats`) is modelled by the sequential fold
  `runJobs`: each counter update is a single mutex-protected increment,
  so the final counter values do not depend on the interleaving.
-/

/-- A byte value (0–255). -/
abbrev Byte := Nat

/-- File contents as a byte sequence. -/
abbrev Bytes := List Nat

/-- Generic prefix test on lists, modelling Go's byte/string prefix
comparisons (`bytes.HasPrefix` / `strings.HasPrefix`). -/
def leadsWith [BEq α] : List α → List α → Bool
  | _, [] => true
  | [], _ :: _ => false
  | d :: ds, s :: ss => d == s && leadsWith ds ss

/-- `strings.HasPrefix s pre`, via the character lists of the strings. -/
def strStartsWith (s p : String) : Bool :=
  leadsWith s.data p.data

/-! ## net/http content sniffing

`isImageFile` calls `http.DetectContentType` from the Go standard
library, which is not part of this repository.  `detectContentType`
below models its published algorithm (net/http sniff.go): the data is
truncated to 512 bytes, the sniff signatures are tried in order and the
first match decides; if no signature matches and the data (after leading
whitespace) contains no binary byte it is plain text, otherwise
`application/octet-stream`.  The modelled signature table keeps, in the
standard library's order, the signatures relevant to this development:
`%PDF-`, the two icon signatures, BMP, the two GIF signatures, the
masked WebP signature, PNG, JPEG, gzip and zip.  The omitted signatures
(HTML, XML, byte-order marks, audio/video, fonts, rar, wasm) all carry
non-`image/` labels and match none of the byte patterns examined here. -/

/-- Whitespace bytes skipped by the sniffer (`isWS` in sniff.go). -/
def sniffWS (b : Nat) : Bool :=
  b == 0x09 || b == 0x0A || b == 0x0C || b == 0x0D || b == 0x20

/-- Drop leading sniffer whitespace (`firstNonWS` in sniff.go). -/
def dropWS : Bytes → Bytes
  | [] => []
  | b :: bs => if sniffWS b then dropWS bs else b :: bs

/-- A byte that makes `textSig` reject the data as binary. -/
def binaryByte (b : Nat) : Bool :=
  b ≤ 0x08 || b == 0x0B || (0x0E ≤ b && b ≤ 0x1A) || (0x1C ≤ b && b ≤ 0x1F)

/-- `textSig`: after leading whitespace, no binary byte may occur. -/
def textMatch (d : Bytes) : Bool :=
  d.all fun b => !binaryByte b

/-- A masked signature match (`maskedSig` in sniff.go): the data must be
at least as long as the pattern and agree with it under the mask. -/
def maskedMatch : Bytes → Bytes → Bytes → Bool
  | _, [], _ => true
  | _, _ :: _, [] => false
  | [], _ :: _, _ :: _ => false
  | m :: ms, p :: ps, d :: ds => Nat.land d m == p && maskedMatch ms ps ds

/-- Mask of the WebP signature (`\xFF\xFF\xFF\xFF\x00\x00\x00\x00` then
six `\xFF`). -/
def webpMask : Bytes :=
  [0xFF, 0xFF, 0xFF, 0xFF, 0x00, 0x00, 0x00, 0x00,
   0xFF, 0xFF, 0xFF, 0xFF, 0xFF, 0xFF]

/-- Pattern of the WebP signature: `RIFF????WEBPVP`. -/
def webpPat : Bytes :=
  [0x52, 0x49, 0x46, 0x46, 0x00, 0x00, 0x00, 0x00,
   0x57, 0x45, 0x42, 0x50, 0x56, 0x50]

/-- Modelled from the spec and the net/http documentation:
`http.DetectContentType` (see the module comment above for the
modelled signature subset). -/
def detectContentType (data : Bytes) : String :=
  let d := data.take 512
  if leadsWith d [0x25, 0x50, 0x44, 0x46, 0x2D] then "application/pdf"
  else if leadsWith d [0x00, 0x00, 0x01, 0x00] then "image/x-icon"
  else if leadsWith d [0x00, 0x00, 0x02, 0x00] then "image/x-icon"
  else if leadsWith d [0x42, 0x4D] then "image/bmp"
  else if leadsWith d [0x47, 0x49, 0x46, 0x38, 0x37, 0x61] then "image/gif"
  else if leadsWith d [0x47, 0x49, 0x46, 0x38, 0x39, 0x61] then "image/gif"
  else if maskedMatch webpMask webpPat d then "image/webp"
  else if leadsWith d [0x89, 0x50, 0x4E, 0x47, 0x0D, 0x0A, 0x1A, 0x0A] then "image/png"
  else if leadsWith d [0xFF, 0xD8, 0xFF] then "image/jpeg"
  else if leadsWith d [0x1F, 0x8B, 0x08] then "application/x-gzip"
  else if leadsWith d [0x50, 0x4B, 0x03, 0x04] then "application/zip"
  else if textMatch (dropWS d) then "text/plain; charset=utf-8"
  else "application/octet-stream"

/-- The 512-byte buffer that `isImageFile` hands to the sniffer: the
code allocates a zeroed 512-byte buffer, performs a single `Read` into
it, ignores the byte count returned and passes the whole buffer on, so
a file shorter than 512 bytes is sniffed with trailing zero bytes. -/
def sniffBuffer (bs : Bytes) : Bytes :=
  bs.take 512 ++ List.replicate (512 - (bs.take 512).length) 0

/-- `isImageFile` (main.go 324–346).  `content` is `none` when the file
cannot be opened or read (the open error and the non-EOF read error
paths); otherwise the file's bytes.  The file is reported as an image
exactly when the detected content type starts with `"image/"`. -/
def isImageFile (content : Option Bytes) : Except String Bool :=
  match content with
  | none => .error "open failed"
  | some bs => .ok (strStartsWith (detectContentType (sniffBuffer bs)) "image/")

/-! ## Paths and the filesystem model -/

/-- The platform path separator: the model fixes the Unix build. -/
def osSep : Char := '/'

/-- `filepath.Join parent child` for a single child component. -/
def joinPath (parent child : String) : String :=
  parent ++ "/" ++ child

/-- `filepath.ToSlash`: replace the platform separator by `'/'`. -/
def toSlash (s : String) : String :=
  ⟨s.data.map fun c => if c = osSep then '/' else c⟩

/-- `filepath.Rel base p` for the walk-produced paths used here, which
always have the form `base ++ "/" ++ rest`: drop the base and the
separator. -/
def relPath (base p : String) : String :=
  ⟨p.data.drop (base.data.length + 1)⟩

/-- `filepath.Base`: the final path component. -/
def baseNameChars : List Char → List Char → List Char
  | [], acc => acc.reverse
  | c :: cs, acc => if c == '/' then baseNameChars cs [] else baseNameChars cs (c :: acc)

/-- `filepath.Base p` (for the separator-terminated-free file paths the
scanner produces). -/
def baseName (p : String) : String :=
  ⟨baseNameChars p.data []⟩

/-- One entry of a zip archive as `addFileToZip` creates it: the
slash-normalized relative name and the compression method recorded in
the header.  The entry's payload bytes are not modelled; no part of the
program reads an archive back. -/
structure ZipEntry where
  name : String
  method : Nat
deriving DecidableEq, Repr

/-- `zip.Deflate` (method id 8 in archive/zip). -/
def zipDeflate : Nat := 8

/-- Contents of a path in the modelled filesystem: a regular file's
bytes, or an archive written by this tool. -/
inductive FileData
  | raw (bs : Bytes)
  | zipArchive (entries : List ZipEntry)
deriving DecidableEq, Repr

/-- The filesystem: an association list from paths to contents (the
first binding for a path wins). -/
abbrev SysState := List (String × FileData)

/-- `os.Stat p` succeeding: the path exists. -/
def existsFile (st : SysState) (p : String) : Bool :=
  (List.lookup p st).isSome

/-- `os.Create p` / completed writes: bind `p` to `d`. -/
def setFile (st : SysState) (p : String) (d : FileData) : SysState :=
  (p, d) :: st

/-- Opening a regular file for reading: its bytes when present.  (An
archive written by the tool is not re-read anywhere; the model treats
it as unreadable raw content.) -/
def readBytes (st : SysState) (p : String) : Option Bytes :=
  match List.lookup p st with
  | some (.raw bs) => some bs
  | _ => none

/-! ## Directory scanner (`analyzeDirectory`, main.go 280–322) -/

/-- One visit produced by `filepath.WalkDir`: a directory (descended
into, and its contents appear as later visits), a regular file, or a
visit reporting a traversal error (the callback returns that error,
aborting the walk). -/
inductive WalkEntry
  | dir (path : String)
  | file (path : String)
  | visitError
deriving DecidableEq, Repr

/-- The walk callback folded over the visits (main.go 285–310):
directories are skipped, a traversal error aborts, and each file is
classified — appended to the image list on `isImageFile` error
(fail-safe inclusion) or success `true`, and recorded by base name in
the non-image list on `false`. -/
def walkAll (st : SysState) :
    List WalkEntry → List String × List String →
    Except String (List String × List String)
  | [], acc => .ok acc
  | .visitError :: _, _ => .error "walk error"
  | .dir _ :: es, acc => walkAll st es acc
  | .file p :: es, acc =>
    match isImageFile (readBytes st p) with
    | .error _ => walkAll st es (acc.1 ++ [p], acc.2)
    | .ok true => walkAll st es (acc.1 ++ [p], acc.2)
    | .ok false => walkAll st es (acc.1, acc.2 ++ [baseName p])

/-- Go string comparison `a < b` on character sequences: Go compares
the UTF-8 bytes, which orders strings exactly by their codepoint
sequences (UTF-8 is order-preserving). -/
def goLtChars : List Char → List Char → Bool
  | [], [] => false
  | [], _ :: _ => true
  | _ :: _, [] => false
  | c :: cs, d :: ds =>
    if c.toNat < d.toNat then true
    else if d.toNat < c.toNat then false
    else goLtChars cs ds

/-- Go `s <= t` (the order used by `sort.Strings`). -/
def strLeB (s t : String) : Bool :=
  !goLtChars t.data s.data

/-- `sort.Strings`: lexicographic sort in Go string order. -/
def sortStrings (l : List String) : List String :=
  List.insertionSort (fun s t => strLeB s t = true) l

/-- `analyzeDirectory` (main.go 280–322): fold the walk, then sort both
lists.  `walk` is the visit sequence `filepath.WalkDir` produces for
the scanned directory. -/
def analyzeDirectory (st : SysState) (walk : List WalkEntry) :
    Except String (List String × List String) :=
  match walkAll st walk ([], []) with
  | .error e => .error e
  | .ok (imgs, nons) => .ok (sortStrings imgs, sortStrings nons)

/-! ## Archive builder (`convertToCBZ`, `addFileToZip`, main.go 248–391) -/

/-- `addFileToZip` (main.go 348–391): compute the slash-normalized
relative entry name, open the source file (failure aborts), and create
a deflate-compressed header with that name. -/
def addFileToZip (st : SysState) (baseDir filePath : String) : Except String ZipEntry :=
  let rel := toSlash (relPath baseDir filePath)
  match List.lookup filePath st with
  | none => .error "open failed"
  | some _ => .ok ⟨rel, zipDeflate⟩

/-- The loop of main.go 271–275: add each image file in order; on the
first failure return the entries already written and the error. -/
def addAll (st : SysState) (baseDir : String) :
    List String → List ZipEntry → List ZipEntry × Option String
  | [], acc => (acc, none)
  | p :: ps, acc =>
    match addFileToZip st baseDir p with
    | .error e => (acc, some e)
    | .ok ent => addAll st baseDir ps (acc ++ [ent])

/-- `convertToCBZ` (main.go 248–278).  `walk` stands for the traversal
of `sourceDir`; `createOk` models whether `os.Create cbzPath` succeeds.
Returns the filesystem after the call and either the excluded-file
count or the error.  On an error after creation the partially written
archive (deferred `Close` flushes the entries written so far) remains
on disk. -/
def convertToCBZ (walk : List WalkEntry) (createOk : Bool)
    (sourceDir cbzPath : String) (st : SysState) :
    SysState × Except String Nat :=
  match analyzeDirectory st walk with
  | .error _ => (st, .error "failed to analyze directory")
  | .ok (imageFiles, nonImageFiles) =>
    if imageFiles = [] then (st, .error "no image files found")
    else if createOk = false then (st, .error "failed to create CBZ file")
    else
      match addAll st sourceDir imageFiles [] with
      | (entries, some _) =>
        (setFile st cbzPath (.zipArchive entries),
          .error "failed to add file to archive")
      | (entries, none) =>
        (setFile st cbzPath (.zipArchive entries), .ok nonImageFiles.length)

/-! ## Dispatcher, workers and statistics (main.go 28–246, 393–419) -/

/-- `ConversionStats` (main.go 29–36); the mutex is a concurrency
artefact with no observable state and is not part of the model. -/
structure ConversionStats where
  Total : Nat
  Success : Nat
  Errors : Nat
  Skipped : Nat
  NonImageFiles : Nat
deriving DecidableEq, Repr

/-- `WorkItem` (main.go 39–43). -/
structure WorkItem where
  FolderName : String
  SourcePath : String
  OutputPath : String
deriving DecidableEq, Repr

/-- The terminal outcome a job reaches in `processWorkItem`. -/
inductive Outcome
  | success
  | failure
  | skipped
deriving DecidableEq, Repr

/-- `processWorkItem` (main.go 210–246): skip when the destination
exists (existence alone — no content comparison), otherwise convert and
count the single terminal outcome.  `walk` and `createOk` are the job's
traversal and create-success environment (see `convertToCBZ`). -/
def processWorkItem (walk : List WalkEntry) (createOk : Bool)
    (item : WorkItem) (st : SysState) (stats : ConversionStats) :
    SysState × ConversionStats × Outcome :=
  if existsFile st item.OutputPath then
    (st, { stats with Skipped := stats.Skipped + 1 }, .skipped)
  else
    match convertToCBZ walk createOk item.SourcePath item.OutputPath st with
    | (st1, .error _) => (st1, { stats with Errors := stats.Errors + 1 }, .failure)
    | (st1, .ok n) =>
      (st1, { stats with
                Success := stats.Success + 1,
                NonImageFiles := stats.NonImageFiles + n }, .success)

/-- A job together with its environment: the work item, the traversal
of its source folder, and whether creating its destination succeeds. -/
structure JobSpec where
  item : WorkItem
  walk : List WalkEntry
  createOk : Bool

/-- The worker pool of `processConcurrently`/`worker` (main.go
173–208): every queued job is processed exactly once, and each counter
update is one mutex-guarded increment, so the final statistics equal
this sequential fold regardless of the interleaving. -/
def runJobs : List JobSpec → SysState → ConversionStats → SysState × ConversionStats
  | [], st, stats => (st, stats)
  | j :: js, st, stats =>
    let r := processWorkItem j.walk j.createOk j.item st stats
    runJobs js r.1 r.2.1

/-- `getFolders` (main.go 154–171): the names of the directory entries
of the input root that are directories, sorted.  `entries` is the
`os.ReadDir` listing as pairs (name, is-a-directory). -/
def getFolders (entries : List (String × Bool)) : List String :=
  sortStrings ((entries.filter fun e => e.2).map fun e => e.1)

/-- The work-item construction of `main` (main.go 110–117): one item
per folder, source under the input root, destination
`<folder>.cbz` under the output root. -/
def mkWorkItems (inputDir outputDir : String) (folders : List String) : List WorkItem :=
  folders.map fun folder =>
    ⟨folder, joinPath inputDir folder, joinPath outputDir (folder ++ ".cbz")⟩

/-- The thread-count validation of `main` (main.go 71–77) over Go ints:
the effective count, and whether the limiting notice was logged. -/
def clampThreads (numCPU threads : Int) : Int × Bool :=
  if threads < 1 then (1, false)
  else if threads > numCPU * 2 then (numCPU * 2, true)
  else (threads, false)

/-- The success-rate computation of `printFinalStats` (main.go
413–418), with Go's float64 arithmetic carried out in `ℚ`: `none` when
the guarded division is not performed. -/
def successRate (stats : ConversionStats) : Option ℚ :=
  let processed := stats.Success + stats.Errors
  if 0 < processed then
    some ((stats.Success : ℚ) / (processed : ℚ) * 100)
  else none

/-! ## Helper lemmas -/

theorem leadsWith_iff_append [BEq α] [LawfulBEq α] :
    ∀ (a b : List α), leadsWith a b = true ↔ ∃ r, a = b ++ r := by
  intro a b
  induction b generalizing a with
  | nil => simp [leadsWith]
  | cons x xs ih =>
    cases a with
    | nil => simp [leadsWith]
    | cons y ys =>
      simp only [leadsWith, Bool.and_eq_true, beq_iff_eq, ih, List.cons_append,
        List.cons.injEq]
      constructor
      · rintro ⟨h1, r, h2⟩
        exact ⟨r, h1, h2⟩
      · rintro ⟨r, h1, h2⟩
        exact ⟨h1, r, h2⟩

theorem toSlash_id (s : String) : toSlash s = s := by
  have h : (fun c => if c = osSep then '/' else c) = fun c : Char => c := by
    funext c
    by_cases h : c = osSep
    · simp [h, osSep]
    · simp [h]
  cases s with
  | mk data => simp [toSlash, h]

theorem relPath_append (base : String) (rest : List Char) :
    relPath base ⟨(base.data ++ ['/']) ++ rest⟩ = ⟨rest⟩ := by
  simp only [relPath]
  congr 1
  have h : base.data.length + 1 = (base.data ++ ['/']).length := by simp
  rw [h, List.drop_left]

theorem lex_cons_cons_iff {c d : Char} {cs ds : List Char} :
    List.Lex (· < ·) (c :: cs) (d :: ds) ↔
      c < d ∨ (c = d ∧ List.Lex (· < ·) cs ds) := by
  constructor
  · intro h
    cases h with
    | cons h => exact Or.inr ⟨rfl, h⟩
    | rel h => exact Or.inl h
  · rintro (h | ⟨rfl, h⟩)
    · exact List.Lex.rel h
    · exact List.Lex.cons h

theorem goLtChars_iff_lex :
    ∀ a b : List Char, goLtChars a b = true ↔ List.Lex (· < ·) a b := by
  intro a
  induction a with
  | nil =>
    intro b
    cases b with
    | nil => simp [goLtChars]
    | cons d ds => simp [goLtChars]; exact List.Lex.nil
  | cons c cs ih =>
    intro b
    cases b with
    | nil =>
      simp only [goLtChars, Bool.false_eq_true, false_iff]
      exact List.Lex.not_nil_right _ _
    | cons d ds =>
      rw [lex_cons_cons_iff]
      simp only [goLtChars]
      by_cases h1 : c.toNat < d.toNat
      · simp only [h1, if_true, true_iff]
        exact Or.inl (Char.lt_iff_val_lt_val.mpr h1)
      · by_cases h2 : d.toNat < c.toNat
        · simp only [h1, h2, if_false, if_true, Bool.false_eq_true, false_iff]
          rintro (h | ⟨rfl, h⟩)
          · exact h1 (Char.lt_iff_val_lt_val.mp h)
          · exact absurd h2 (lt_irrefl _)
        · have hcd : c = d := by
            apply Char.ext
            apply UInt32.ext
            simp only [Char.toNat] at h1 h2
            omega
          simp only [h1, h2, if_false, ih ds]
          constructor
          · intro h
            exact Or.inr ⟨hcd, h⟩
          · rintro (h | ⟨_, h⟩)
            · exact absurd (Char.lt_iff_val_lt_val.mp h) h1
            · exact h

theorem strLeB_iff_le (s t : String) : strLeB s t = true ↔ s ≤ t := by
  have hlex : goLtChars t.data s.data = true ↔ t < s := by
    rw [String.lt_iff_toList_lt]
    exact goLtChars_iff_lex t.data s.data
  rw [strLeB, Bool.not_eq_true']
  constructor
  · intro h
    refine not_lt.mp fun hlt => ?_
    rw [← hlex] at hlt
    rw [h] at hlt
    exact Bool.false_ne_true hlt
  · intro h
    by_contra hne
    rw [Bool.not_eq_false] at hne
    exact absurd h (not_le.mpr (hlex.mp hne))

theorem sortStrings_sorted (l : List String) :
    List.Sorted (· ≤ ·) (sortStrings l) := by
  have htot : IsTotal String fun s t => strLeB s t = true := by
    constructor
    intro a b
    rcases le_total a b with h | h
    · exact Or.inl ((strLeB_iff_le a b).mpr h)
    · exact Or.inr ((strLeB_iff_le b a).mpr h)
  have htr : IsTrans String fun s t => strLeB s t = true := by
    constructor
    intro a b c hab hbc
    exact (strLeB_iff_le a c).mpr
      (le_trans ((strLeB_iff_le a b).mp hab) ((strLeB_iff_le b c).mp hbc))
  have hs := List.sorted_insertionSort (fun s t => strLeB s t = true) l
  exact hs.imp fun h => (strLeB_iff_le _ _).mp h

theorem mem_sortStrings {l : List String} {x : String} :
    x ∈ sortStrings l ↔ x ∈ l :=
  List.mem_insertionSort (fun s t => strLeB s t = true)

theorem walkAll_ok_of_no_error (st : SysState) :
    ∀ (walk : List WalkEntry) (acc : List String × List String),
      WalkEntry.visitError ∉ walk →
      ∃ pr, walkAll st walk acc = .ok pr := by
  intro walk
  induction walk with
  | nil => exact fun acc _ => ⟨acc, rfl⟩
  | cons e es ih =>
    intro acc h
    have hes : WalkEntry.visitError ∉ es := fun hm => h (List.mem_cons_of_mem _ hm)
    cases e with
    | visitError => exact absurd (List.mem_cons_self _ _) h
    | dir p => exact ih acc hes
    | file p =>
      cases hc : isImageFile (readBytes st p) with
      | error e0 =>
        obtain ⟨pr, hpr⟩ := ih (acc.1 ++ [p], acc.2) hes
        exact ⟨pr, by simp [walkAll, hc, hpr]⟩
      | ok b =>
        cases b with
        | true =>
          obtain ⟨pr, hpr⟩ := ih (acc.1 ++ [p], acc.2) hes
          exact ⟨pr, by simp [walkAll, hc, hpr]⟩
        | false =>
          obtain ⟨pr, hpr⟩ := ih (acc.1, acc.2 ++ [baseName p]) hes
          exact ⟨pr, by simp [walkAll, hc, hpr]⟩

theorem walkAll_acc_mem (st : SysState) :
    ∀ (walk : List WalkEntry) (acc pr : List String × List String),
      walkAll st walk acc = .ok pr →
      (∀ x, x ∈ acc.1 → x ∈ pr.1) ∧ (∀ x, x ∈ acc.2 → x ∈ pr.2) := by
  intro walk
  induction walk with
  | nil =>
    intro acc pr h
    simp only [walkAll, Except.ok.injEq] at h
    subst h
    exact ⟨fun x hx => hx, fun x hx => hx⟩
  | cons e es ih =>
    intro acc pr h
    cases e with
    | visitError => simp [walkAll] at h
    | dir p => exact ih acc pr h
    | file p =>
      cases hc : isImageFile (readBytes st p) with
      | error e0 =>
        simp only [walkAll, hc] at h
        obtain ⟨h1, h2⟩ := ih _ _ h
        exact ⟨fun x hx => h1 x (by simp [hx]), h2⟩
      | ok b =>
        cases b with
        | true =>
          simp only [walkAll, hc] at h
          obtain ⟨h1, h2⟩ := ih _ _ h
          exact ⟨fun x hx => h1 x (by simp [hx]), h2⟩
        | false =>
          simp only [walkAll, hc] at h
          obtain ⟨h1, h2⟩ := ih _ _ h
          exact ⟨h1, fun x hx => h2 x (by simp [hx])⟩

theorem walkAll_file_img (st : SysState) :
    ∀ (walk : List WalkEntry) (acc pr : List String × List String),
      walkAll st walk acc = .ok pr →
      ∀ p, WalkEntry.file p ∈ walk →
        isImageFile (readBytes st p) ≠ .ok false → p ∈ pr.1 := by
  intro walk
  induction walk with
  | nil => intro acc pr _ p hp; simp at hp
  | cons e es ih =>
    intro acc pr h p hp hni
    rcases List.mem_cons.mp hp with he | hes
    · subst he
      cases hc : isImageFile (readBytes st p) with
      | error e0 =>
        simp only [walkAll, hc] at h
        exact (walkAll_acc_mem st es _ _ h).1 p (by simp)
      | ok b =>
        cases b with
        | true =>
          simp only [walkAll, hc] at h
          exact (walkAll_acc_mem st es _ _ h).1 p (by simp)
        | false => exact absurd hc hni
    · cases e with
      | visitError => simp [walkAll] at h
      | dir q => exact ih acc pr h p hes hni
      | file q =>
        cases hc : isImageFile (readBytes st q) with
        | error e0 =>
          simp only [walkAll, hc] at h
          exact ih _ _ h p hes hni
        | ok b =>
          cases b with
          | true =>
            simp only [walkAll, hc] at h
            exact ih _ _ h p hes hni
          | false =>
            simp only [walkAll, hc] at h
            exact ih _ _ h p hes hni

theorem walkAll_src (st : SysState) :
    ∀ (walk : List WalkEntry) (acc pr : List String × List String),
      walkAll st walk acc = .ok pr →
      (∀ x, x ∈ pr.1 → x ∈ acc.1 ∨ ∃ p, WalkEntry.file p ∈ walk ∧ x = p) ∧
      (∀ x, x ∈ pr.2 → x ∈ acc.2 ∨ ∃ p, WalkEntry.file p ∈ walk ∧ x = baseName p) := by
  intro walk
  induction walk with
  | nil =>
    intro acc pr h
    simp only [walkAll, Except.ok.injEq] at h
    subst h
    exact ⟨fun x hx => Or.inl hx, fun x hx => Or.inl hx⟩
  | cons e es ih =>
    intro acc pr h
    cases e with
    | visitError => simp [walkAll] at h
    | dir p =>
      obtain ⟨h1, h2⟩ := ih acc pr h
      constructor
      · intro x hx
        rcases h1 x hx with hx1 | ⟨q, hq, hxq⟩
        · exact Or.inl hx1
        · exact Or.inr ⟨q, List.mem_cons_of_mem _ hq, hxq⟩
      · intro x hx
        rcases h2 x hx with hx1 | ⟨q, hq, hxq⟩
        · exact Or.inl hx1
        · exact Or.inr ⟨q, List.mem_cons_of_mem _ hq, hxq⟩
    | file p =>
      have step :
          ∀ acc1, walkAll st es acc1 = .ok pr →
            (∀ x, x ∈ acc1.1 → x ∈ acc.1 ∨ x = p) →
            (∀ x, x ∈ acc1.2 → x ∈ acc.2 ∨ x = baseName p) →
            (∀ x, x ∈ pr.1 → x ∈ acc.1 ∨ ∃ q, WalkEntry.file q ∈ .file p :: es ∧ x = q) ∧
            (∀ x, x ∈ pr.2 → x ∈ acc.2 ∨ ∃ q, WalkEntry.file q ∈ .file p :: es ∧ x = baseName q) := by
        intro acc1 h1 hi1 hi2
        obtain ⟨g1, g2⟩ := ih acc1 pr h1
        constructor
        · intro x hx
          rcases g1 x hx with hx1 | ⟨q, hq, hxq⟩
          · rcases hi1 x hx1 with hx2 | hx2
            · exact Or.inl hx2
            · exact Or.inr ⟨p, List.mem_cons_self _ _, hx2⟩
          · exact Or.inr ⟨q, List.mem_cons_of_mem _ hq, hxq⟩
        · intro x hx
          rcases g2 x hx with hx1 | ⟨q, hq, hxq⟩
          · rcases hi2 x hx1 with hx2 | hx2
            · exact Or.inl hx2
            · exact Or.inr ⟨p, List.mem_cons_self _ _, hx2⟩
          · exact Or.inr ⟨q, List.mem_cons_of_mem _ hq, hxq⟩
      cases hc : isImageFile (readBytes st p) with
      | error e0 =>
        simp only [walkAll, hc] at h
        exact step _ h (by intro x hx; simpa using (List.mem_append.mp hx).imp id (by simp))
          (fun x hx => Or.inl hx)
      | ok b =>
        cases b with
        | true =>
          simp only [walkAll, hc] at h
          exact step _ h (by intro x hx; simpa using (List.mem_append.mp hx).imp id (by simp))
            (fun x hx => Or.inl hx)
        | false =>
          simp only [walkAll, hc] at h
          exact step _ h (fun x hx => Or.inl hx)
            (by intro x hx; simpa using (List.mem_append.mp hx).imp id (by simp))

theorem analyzeDirectory_eq_ok (st : SysState) (walk : List WalkEntry)
    (imgs nons : List String)
    (h : analyzeDirectory st walk = .ok (imgs, nons)) :
    ∃ pr, walkAll st walk ([], []) = .ok pr ∧
      imgs = sortStrings pr.1 ∧ nons = sortStrings pr.2 := by
  unfold analyzeDirectory at h
  cases h1 : walkAll st walk ([], []) with
  | error e => rw [h1] at h; exact absurd h (by simp)
  | ok pr =>
    obtain ⟨i0, n0⟩ := pr
    rw [h1] at h
    simp only [Except.ok.injEq, Prod.mk.injEq] at h
    exact ⟨(i0, n0), rfl, h.1.symm, h.2.symm⟩

/-! ## Claim C2 -/

/-- C2: during a scan in which the traversal itself reports no error,
the scan always succeeds (a classification failure never escalates to a
job-level failure), and every visited file whose classification fails
is appended to the image list anyway — included in the archive rather
than dropped. -/
theorem C2_classification_failsafe (st : SysState) (walk : List WalkEntry)
    (h : WalkEntry.visitError ∉ walk) :
    ∃ imgs nons, analyzeDirectory st walk = .ok (imgs, nons) ∧
      ∀ p e, WalkEntry.file p ∈ walk →
        isImageFile (readBytes st p) = .error e → p ∈ imgs := by
  obtain ⟨pr, hpr⟩ := walkAll_ok_of_no_error st walk ([], []) h
  obtain ⟨i0, n0⟩ := pr
  refine ⟨sortStrings i0, sortStrings n0, ?_, ?_⟩
  · simp [analyzeDirectory, hpr]
  · intro p e hp herr
    have hm : p ∈ i0 :=
      walkAll_file_img st walk ([], []) (i0, n0) hpr p hp (by simp [herr])
    exact mem_sortStrings.mpr hm

/-- Witness for C2: a file whose contents cannot be read (so
`isImageFile` fails) still lands in the image list. -/
theorem C2_witness :
    ∃ imgs nons,
      analyzeDirectory [] [WalkEntry.file "in/A/page1"] = .ok (imgs, nons) ∧
      ∀ p e, WalkEntry.file p ∈ [WalkEntry.file "in/A/page1"] →
        isImageFile (readBytes [] p) = .error e → p ∈ imgs :=
  C2_classification_failsafe [] [WalkEntry.file "in/A/page1"] (by simp)

/-! ## Claim C7 -/

/-- C7: a successful scan returns the image list sorted
lexicographically (by full path) and the non-image list sorted
lexicographically (each element being a base name), and every element
of either list stems from a file visit — directory visits are descended
into (their contents appear as further visits) but are recorded in
neither list. -/
theorem C7_scanner_determinism (st : SysState) (walk : List WalkEntry)
    (imgs nons : List String)
    (h : analyzeDirectory st walk = .ok (imgs, nons)) :
    List.Sorted (· ≤ ·) imgs ∧ List.Sorted (· ≤ ·) nons ∧
    (∀ x ∈ imgs, ∃ p, WalkEntry.file p ∈ walk ∧ x = p) ∧
    (∀ x ∈ nons, ∃ p, WalkEntry.file p ∈ walk ∧ x = baseName p) := by
  obtain ⟨pr, hpr, hi, hn⟩ := analyzeDirectory_eq_ok st walk imgs nons h
  obtain ⟨g1, g2⟩ := walkAll_src st walk ([], []) pr hpr
  refine ⟨hi ▸ sortStrings_sorted pr.1, hn ▸ sortStrings_sorted pr.2, ?_, ?_⟩
  · intro x hx
    have hx1 : x ∈ pr.1 := mem_sortStrings.mp (hi ▸ hx)
    rcases g1 x hx1 with h0 | hsrc
    · simp at h0
    · exact hsrc
  · intro x hx
    have hx1 : x ∈ pr.2 := mem_sortStrings.mp (hn ▸ hx)
    rcases g2 x hx1 with h0 | hsrc
    · simp at h0
    · exact hsrc

/-! ## Concrete sample data used by witnesses -/

/-- A PNG file: the eight PNG signature bytes and two content bytes. -/
def samplePng : Bytes := [0x89, 0x50, 0x4E, 0x47, 0x0D, 0x0A, 0x1A, 0x0A, 0x00, 0x01]

/-- A JPEG file: the JPEG signature and an APP0 marker start. -/
def sampleJpeg : Bytes := [0xFF, 0xD8, 0xFF, 0xE0, 0x00, 0x10]

/-- A GIF file: the `GIF89a` signature and one content byte. -/
def sampleGif : Bytes := [0x47, 0x49, 0x46, 0x38, 0x39, 0x61, 0x01]

/-- A WebP file: `RIFF`, a chunk size, `WEBPVP8 `. -/
def sampleWebp : Bytes :=
  [0x52, 0x49, 0x46, 0x46, 0x24, 0x00, 0x00, 0x00,
   0x57, 0x45, 0x42, 0x50, 0x56, 0x50, 0x38, 0x20]

/-- Plain ASCII text (`just text`), as found in a mislabelled `.jpg`. -/
def sampleText : Bytes := [0x6A, 0x75, 0x73, 0x74, 0x20, 0x74, 0x65, 0x78, 0x74]

/-- A source folder mixing image and non-image files, with a nested
subdirectory; enumeration deliberately not in sorted order. -/
def stMixed : SysState :=
  [("in/A/sub/a2.png", FileData.raw samplePng),
   ("in/A/b1.png", FileData.raw sampleJpeg),
   ("in/A/x.txt", FileData.raw sampleText)]

/-- The walk of `in/A` over `stMixed`. -/
def walkMixed : List WalkEntry :=
  [.dir "in/A", .file "in/A/x.txt", .dir "in/A/sub",
   .file "in/A/sub/a2.png", .file "in/A/b1.png"]

/-- Witness for C7: the mixed folder scans to the image paths in sorted
order (the walk visited them in the opposite order), the non-image base
names, and both lists stem from file visits only. -/
theorem C7_witness :
    List.Sorted (· ≤ ·) ["in/A/b1.png", "in/A/sub/a2.png"] ∧
    List.Sorted (· ≤ ·) ["x.txt"] ∧
    (∀ x ∈ ["in/A/b1.png", "in/A/sub/a2.png"],
      ∃ p, WalkEntry.file p ∈ walkMixed ∧ x = p) ∧
    (∀ x ∈ ["x.txt"], ∃ p, WalkEntry.file p ∈ walkMixed ∧ x = baseName p) :=
  C7_scanner_determinism stMixed walkMixed
    ["in/A/b1.png", "in/A/sub/a2.png"] ["x.txt"] rfl

/-! ## Claim C3 -/

/-- C3: a job whose scan yields an empty image list fails with exactly
the error `no image files found`, and the filesystem is returned
untouched — in particular no archive file is created at the
destination, whether or not creating it would have succeeded (the
failure is decided before the destination is opened). -/
theorem C3_empty_image_set (walk : List WalkEntry) (createOk : Bool)
    (src dst : String) (st : SysState) (nons : List String)
    (h : analyzeDirectory st walk = .ok ([], nons)) :
    convertToCBZ walk createOk src dst st = (st, .error "no image files found") := by
  simp [convertToCBZ, h]

/-- Witness for C3: a folder holding only a text file converts to the
empty-image-set failure and creates nothing. -/
theorem C3_witness :
    convertToCBZ [WalkEntry.file "in/A/notes.txt"] true "in/A" "out/A.cbz"
      [("in/A/notes.txt", FileData.raw sampleText)] =
      ([("in/A/notes.txt", FileData.raw sampleText)],
        .error "no image files found") :=
  C3_empty_image_set [WalkEntry.file "in/A/notes.txt"] true "in/A" "out/A.cbz"
    [("in/A/notes.txt", FileData.raw sampleText)] ["notes.txt"] rfl

/-! ## Claim C1 -/

theorem processWorkItem_one_outcome (walk : List WalkEntry) (createOk : Bool)
    (item : WorkItem) (st : SysState) (stats : ConversionStats) :
    (processWorkItem walk createOk item st stats).2.1.Total = stats.Total ∧
    (processWorkItem walk createOk item st stats).2.1.Success +
      (processWorkItem walk createOk item st stats).2.1.Errors +
      (processWorkItem walk createOk item st stats).2.1.Skipped =
      stats.Success + stats.Errors + stats.Skipped + 1 := by
  unfold processWorkItem
  by_cases h : existsFile st item.OutputPath
  · simp only [h, if_true]
    constructor <;> first | omega | trivial
  · rcases hc : convertToCBZ walk createOk item.SourcePath item.OutputPath st with ⟨st1, r⟩
    cases r with
    | error e =>
      simp only [h, Bool.false_eq_true, if_false, hc]
      constructor <;> first | omega | trivial
    | ok n =>
      simp only [h, Bool.false_eq_true, if_false, hc]
      constructor <;> first | omega | trivial

theorem runJobs_stats (specs : List JobSpec) :
    ∀ (st : SysState) (stats : ConversionStats),
      (runJobs specs st stats).2.Total = stats.Total ∧
      (runJobs specs st stats).2.Success + (runJobs specs st stats).2.Errors +
        (runJobs specs st stats).2.Skipped =
        stats.Success + stats.Errors + stats.Skipped + specs.length := by
  induction specs with
  | nil => intro st stats; simp [runJobs]
  | cons j js ih =>
    intro st stats
    simp only [runJobs]
    obtain ⟨h1, h2⟩ := processWorkItem_one_outcome j.walk j.createOk j.item st stats
    obtain ⟨g1, g2⟩ :=
      ih (processWorkItem j.walk j.createOk j.item st stats).1
        (processWorkItem j.walk j.createOk j.item st stats).2.1
    refine ⟨by rw [g1, h1], ?_⟩
    rw [g2, h2]
    simp only [List.length_cons]
    omega

/-- C1: the dispatcher creates exactly one job per immediate subfolder
of the input root; each processed job increments exactly one of the
Success/Errors/Skipped counters exactly once while leaving Total
untouched; and a full run over N jobs starting from the initial
statistics (Total = N, all counters zero) ends with
Success + Errors + Skipped = Total = N. -/
theorem C1_job_accounting :
    (∀ (inputDir outputDir : String) (entries : List (String × Bool)),
      (mkWorkItems inputDir outputDir (getFolders entries)).length =
        (entries.filter fun e => e.2).length) ∧
    (∀ (walk : List WalkEntry) (createOk : Bool) (item : WorkItem)
        (st : SysState) (stats : ConversionStats),
      (processWorkItem walk createOk item st stats).2.1.Total = stats.Total ∧
      (processWorkItem walk createOk item st stats).2.1.Success +
        (processWorkItem walk createOk item st stats).2.1.Errors +
        (processWorkItem walk createOk item st stats).2.1.Skipped =
        stats.Success + stats.Errors + stats.Skipped + 1) ∧
    (∀ (specs : List JobSpec) (st : SysState),
      (runJobs specs st ⟨specs.length, 0, 0, 0, 0⟩).2.Success +
        (runJobs specs st ⟨specs.length, 0, 0, 0, 0⟩).2.Errors +
        (runJobs specs st ⟨specs.length, 0, 0, 0, 0⟩).2.Skipped =
        (runJobs specs st ⟨specs.length, 0, 0, 0, 0⟩).2.Total ∧
      (runJobs specs st ⟨specs.length, 0, 0, 0, 0⟩).2.Total = specs.length) := by
  refine ⟨?_, processWorkItem_one_outcome, ?_⟩
  · intro inputDir outputDir entries
    simp [mkWorkItems, getFolders, sortStrings, List.length_insertionSort]
  · intro specs st
    obtain ⟨h1, h2⟩ := runJobs_stats specs st ⟨specs.length, 0, 0, 0, 0⟩
    simp only [] at h1 h2
    have h2s : (runJobs specs st ⟨specs.length, 0, 0, 0, 0⟩).2.Success +
        (runJobs specs st ⟨specs.length, 0, 0, 0, 0⟩).2.Errors +
        (runJobs specs st ⟨specs.length, 0, 0, 0, 0⟩).2.Skipped = specs.length := by
      simpa using h2
    exact ⟨by rw [h2s, h1], h1⟩

/-! ## Claim C5 -/

/-- C5: a job whose destination path exists when the worker claims it
is skipped purely on existence: the Skipped counter is incremented and
nothing else changes — the filesystem (and with it every byte of the
existing archive) is returned untouched, and no scan or build output
appears in the state.  Consequently a whole run over jobs whose
destinations all exist only counts skips and leaves the filesystem
exactly as it was. -/
theorem C5_skip_existing :
    (∀ (walk : List WalkEntry) (createOk : Bool) (item : WorkItem)
        (st : SysState) (stats : ConversionStats),
      existsFile st item.OutputPath = true →
      processWorkItem walk createOk item st stats =
        (st, { stats with Skipped := stats.Skipped + 1 }, Outcome.skipped)) ∧
    (∀ (specs : List JobSpec) (st : SysState) (stats : ConversionStats),
      (∀ j ∈ specs, existsFile st j.item.OutputPath = true) →
      runJobs specs st stats =
        (st, { stats with Skipped := stats.Skipped + specs.length })) := by
  have hone : ∀ (walk : List WalkEntry) (createOk : Bool) (item : WorkItem)
      (st : SysState) (stats : ConversionStats),
      existsFile st item.OutputPath = true →
      processWorkItem walk createOk item st stats =
        (st, { stats with Skipped := stats.Skipped + 1 }, Outcome.skipped) := by
    intro walk createOk item st stats h
    simp [processWorkItem, h]
  refine ⟨hone, ?_⟩
  intro specs
  induction specs with
  | nil => intro st stats _; simp [runJobs]
  | cons j js ih =>
    intro st stats hall
    have hj := hone j.walk j.createOk j.item st stats
      (hall j (List.mem_cons_self _ _))
    simp only [runJobs, hj]
    have hrest := ih st { stats with Skipped := stats.Skipped + 1 }
      (fun k hk => hall k (List.mem_cons_of_mem _ hk))
    rw [hrest]
    simp only [List.length_cons, Prod.mk.injEq, true_and]
    cases stats with
    | mk t s e k n =>
      simp only [ConversionStats.mk.injEq, true_and, and_true]
      omega

/-- Witness for C5: re-claiming a job whose `out/A.cbz` already exists
skips it and leaves the filesystem identical, both for a single job and
for a run. -/
theorem C5_witness :
    processWorkItem [] true ⟨"A", "in/A", "out/A.cbz"⟩
        [("out/A.cbz", FileData.zipArchive [])] ⟨1, 0, 0, 0, 0⟩ =
      ([("out/A.cbz", FileData.zipArchive [])], ⟨1, 0, 0, 1, 0⟩, Outcome.skipped) ∧
    runJobs [⟨⟨"A", "in/A", "out/A.cbz"⟩, [], true⟩]
        [("out/A.cbz", FileData.zipArchive [])] ⟨1, 0, 0, 0, 0⟩ =
      ([("out/A.cbz", FileData.zipArchive [])], ⟨1, 0, 0, 1, 0⟩) := by
  constructor
  · exact C5_skip_existing.1 [] true ⟨"A", "in/A", "out/A.cbz"⟩
      [("out/A.cbz", FileData.zipArchive [])] ⟨1, 0, 0, 0, 0⟩ rfl
  · exact C5_skip_existing.2 [⟨⟨"A", "in/A", "out/A.cbz"⟩, [], true⟩]
      [("out/A.cbz", FileData.zipArchive [])] ⟨1, 0, 0, 0, 0⟩
      (by intro j hj; simp only [List.mem_singleton] at hj; subst hj; rfl)

/-! ## Claim C8 -/

/-- C8: with at least one available processor, the effective worker
count is the clamp of the request to [1, 2 × processors]: any request
below 1 yields exactly 1, a request above the ceiling yields exactly
the ceiling together with the logged notice, and a request inside the
inclusive range is used unchanged with no notice. -/
theorem C8_thread_clamp (numCPU threads : Int) (h : 1 ≤ numCPU) :
    (clampThreads numCPU threads).1 = max 1 (min threads (numCPU * 2)) ∧
    (threads < 1 → clampThreads numCPU threads = (1, false)) ∧
    (numCPU * 2 < threads → clampThreads numCPU threads = (numCPU * 2, true)) ∧
    (1 ≤ threads → threads ≤ numCPU * 2 →
      clampThreads numCPU threads = (threads, false)) := by
  unfold clampThreads
  refine ⟨?_, ?_, ?_, ?_⟩
  · split_ifs <;> simp [max_def, min_def] <;> split_ifs <;> omega
  · intro h1
    rw [if_pos h1]
  · intro h1
    rw [if_neg (by omega), if_pos (by omega)]
  · intro h1 h2
    rw [if_neg (by omega), if_neg (by omega)]

/-- Witness for C8: with 4 processors, requesting 0 threads gives 1,
requesting 20 gives 8 with the notice, and requesting 5 gives 5. -/
theorem C8_witness :
    clampThreads 4 0 = (1, false) ∧
    clampThreads 4 20 = (8, true) ∧
    clampThreads 4 5 = (5, false) :=
  ⟨(C8_thread_clamp 4 0 (by norm_num)).2.1 (by norm_num),
   (C8_thread_clamp 4 20 (by norm_num)).2.2.1 (by norm_num),
   (C8_thread_clamp 4 5 (by norm_num)).2.2.2 (by norm_num) (by norm_num)⟩

/-! ## Claim C9 -/

/-- C9: the final report divides only under the guard
`Success + Errors > 0`: when no job succeeded or failed no rate is
produced (the division by zero is unreachable), and otherwise the rate
is Success / (Success + Errors) × 100. -/
theorem C9_rate_guard (stats : ConversionStats) :
    (stats.Success + stats.Errors = 0 → successRate stats = none) ∧
    (0 < stats.Success + stats.Errors →
      successRate stats =
        some ((stats.Success : ℚ) /
          ((stats.Success : ℚ) + (stats.Errors : ℚ)) * 100)) := by
  constructor
  · intro h
    simp [successRate, h]
  · intro h
    simp only [successRate]
    rw [if_pos h]
    norm_num [Nat.cast_add]

/-- Witness for C9: with 2 successes and 1 failure the rate is
computed from the guarded division. -/
theorem C9_witness :
    successRate ⟨5, 2, 1, 2, 0⟩ =
      some ((((⟨5, 2, 1, 2, 0⟩ : ConversionStats).Success : ℚ) /
        (((⟨5, 2, 1, 2, 0⟩ : ConversionStats).Success : ℚ) +
          ((⟨5, 2, 1, 2, 0⟩ : ConversionStats).Errors : ℚ)) * 100)) :=
  (C9_rate_guard ⟨5, 2, 1, 2, 0⟩).2 (by norm_num)

/-! ## Claim C4 -/

theorem addFileToZip_ok (st : SysState) (baseDir p : String) (ent : ZipEntry)
    (h : addFileToZip st baseDir p = .ok ent) :
    ent = ⟨toSlash (relPath baseDir p), zipDeflate⟩ := by
  unfold addFileToZip at h
  cases hl : List.lookup p st with
  | none => rw [hl] at h; exact absurd h (by simp)
  | some d =>
    rw [hl] at h
    simp only [Except.ok.injEq] at h
    exact h.symm

theorem addAll_none (st : SysState) (baseDir : String) :
    ∀ (ps : List String) (acc : List ZipEntry),
      (addAll st baseDir ps acc).2 = none →
      (addAll st baseDir ps acc).1 =
        acc ++ ps.map fun p => ⟨toSlash (relPath baseDir p), zipDeflate⟩ := by
  intro ps
  induction ps with
  | nil => intro acc _; simp [addAll]
  | cons p ps ih =>
    intro acc h
    cases hf : addFileToZip st baseDir p with
    | error e =>
      rw [show addAll st baseDir (p :: ps) acc = (acc, some e) by
        simp [addAll, hf]] at h
      exact absurd h (by simp)
    | ok ent =>
      have hent := addFileToZip_ok st baseDir p ent hf
      subst hent
      simp only [addAll, hf] at h ⊢
      rw [ih _ h]
      simp

theorem relName_le (src p q : String)
    (hp : leadsWith p.data (src.data ++ ['/']) = true)
    (hq : leadsWith q.data (src.data ++ ['/']) = true)
    (hle : p ≤ q) :
    toSlash (relPath src p) ≤ toSlash (relPath src q) := by
  obtain ⟨a, ha⟩ := (leadsWith_iff_append p.data (src.data ++ ['/'])).mp hp
  obtain ⟨b, hb⟩ := (leadsWith_iff_append q.data (src.data ++ ['/'])).mp hq
  rw [toSlash_id, toSlash_id]
  have hpa : relPath src p = ⟨a⟩ := by
    simp only [relPath, ha]
    congr 1
    rw [show src.data.length + 1 = (src.data ++ ['/']).length by simp]
    rw [List.drop_left]
  have hqb : relPath src q = ⟨b⟩ := by
    simp only [relPath, hb]
    congr 1
    rw [show src.data.length + 1 = (src.data ++ ['/']).length by simp]
    rw [List.drop_left]
  rw [hpa, hqb]
  rw [String.le_iff_toList_le] at hle ⊢
  have hta : (String.mk a).toList = a := rfl
  have htb : (String.mk b).toList = b := rfl
  rw [hta, htb]
  have htp : p.toList = (src.data ++ ['/']) ++ a := ha
  have htq : q.toList = (src.data ++ ['/']) ++ b := hb
  rw [htp, htq] at hle
  refine not_lt.mp fun hba => ?_
  have hlt : (src.data ++ ['/']) ++ b < (src.data ++ ['/']) ++ a :=
    List.Lex.append_left _ hba _
  exact absurd hle (not_le.mpr hlt)

theorem sorted_relNames (src : String) (imgs : List String)
    (hs : List.Sorted (· ≤ ·) imgs)
    (hU : ∀ p ∈ imgs, leadsWith p.data (src.data ++ ['/']) = true) :
    List.Sorted (· ≤ ·) (imgs.map fun p => toSlash (relPath src p)) := by
  rw [List.Sorted, List.pairwise_map]
  exact hs.imp_of_mem fun ha hb hle => relName_le src _ _ (hU _ ha) (hU _ hb) hle

/-- C4: when a conversion job succeeds, the destination holds an
archive whose entries are exactly the scanned image files in order —
each entry named by the file's path relative to the source root with
separators normalized to forward slashes and compressed with the
deflate method, the names appearing in lexicographic order — and the
reported excluded-file count is exactly the number of non-image files.
(The hypothesis `hU` records that every scanned path lies beneath the
source root, which is how `filepath.WalkDir` produces them.) -/
theorem C4_archive_contents (walk : List WalkEntry) (createOk : Bool)
    (src dst : String) (st st' : SysState) (imgs nons : List String) (n : Nat)
    (hA : analyzeDirectory st walk = .ok (imgs, nons))
    (hU : ∀ p ∈ imgs, leadsWith p.data (src.data ++ ['/']) = true)
    (hconv : convertToCBZ walk createOk src dst st = (st', .ok n)) :
    n = nons.length ∧
    List.lookup dst st' =
      some (.zipArchive (imgs.map fun p => ⟨toSlash (relPath src p), zipDeflate⟩)) ∧
    List.Sorted (· ≤ ·) (imgs.map fun p => toSlash (relPath src p)) ∧
    ∀ e ∈ imgs.map fun p => (⟨toSlash (relPath src p), zipDeflate⟩ : ZipEntry),
      e.method = zipDeflate := by
  obtain ⟨pr, hpr, hi, hn⟩ := analyzeDirectory_eq_ok st walk imgs nons hA
  have hsorted : List.Sorted (· ≤ ·) imgs := hi ▸ sortStrings_sorted pr.1
  simp only [convertToCBZ, hA] at hconv
  by_cases h0 : imgs = []
  · rw [if_pos h0] at hconv
    exact absurd hconv (by simp)
  rw [if_neg h0] at hconv
  by_cases hcr : createOk = false
  · rw [if_pos hcr] at hconv
    exact absurd hconv (by simp)
  rw [if_neg hcr] at hconv
  rcases hb : addAll st src imgs [] with ⟨entries, err⟩
  rw [hb] at hconv
  cases err with
  | some e => exact absurd hconv (by simp)
  | none =>
    simp only [Prod.mk.injEq, Except.ok.injEq] at hconv
    obtain ⟨hst, hnn⟩ := hconv
    have hent : entries = imgs.map fun p => ⟨toSlash (relPath src p), zipDeflate⟩ := by
      have := addAll_none st src imgs [] (by rw [hb])
      rw [hb] at this
      simpa using this
    refine ⟨hnn.symm, ?_, sorted_relNames src imgs hsorted hU, ?_⟩
    · rw [← hst, ← hent]
      simp [setFile, List.lookup]
    · intro e he
      simp only [List.mem_map] at he
      obtain ⟨p, _, hp⟩ := he
      rw [← hp]

/-- Witness for C4: converting the mixed folder produces the archive
with exactly the two image files, relative slash names in lexicographic
order, deflate throughout, and excluded count 1. -/
theorem C4_witness :
    1 = ["x.txt"].length ∧
    List.lookup "out/A.cbz"
        (("out/A.cbz", FileData.zipArchive
          [⟨"b1.png", zipDeflate⟩, ⟨"sub/a2.png", zipDeflate⟩]) :: stMixed) =
      some (.zipArchive ((["in/A/b1.png", "in/A/sub/a2.png"]).map
        fun p => ⟨toSlash (relPath "in/A" p), zipDeflate⟩)) ∧
    List.Sorted (· ≤ ·) ((["in/A/b1.png", "in/A/sub/a2.png"]).map
      fun p => toSlash (relPath "in/A" p)) ∧
    ∀ e ∈ (["in/A/b1.png", "in/A/sub/a2.png"]).map
        fun p => (⟨toSlash (relPath "in/A" p), zipDeflate⟩ : ZipEntry),
      e.method = zipDeflate :=
  C4_archive_contents walkMixed true "in/A" "out/A.cbz" stMixed
    (("out/A.cbz", FileData.zipArchive
      [⟨"b1.png", zipDeflate⟩, ⟨"sub/a2.png", zipDeflate⟩]) :: stMixed)
    ["in/A/b1.png", "in/A/sub/a2.png"] ["x.txt"] 1 rfl (by decide) rfl

/-! ## Claim C6 -/

/-- The classifier as the claim words it: the content-type label is
derived from the bytes actually read — the first (at most) 512 bytes of
the file, with nothing appended. -/
def isImageFileSpec (content : Option Bytes) : Except String Bool :=
  match content with
  | none => .error "open failed"
  | some bs => .ok (strStartsWith (detectContentType (bs.take 512)) "image/")

/-- Counterexample to C6 as stated: a three-byte file `00 00 01` is not
labelled `image/…` by sniffing its own bytes (no signature matches and
the data is binary, so the label is `application/octet-stream`), yet
the code classifies it as an image: the zero-filled tail of the
512-byte read buffer — the code ignores how many bytes `Read` actually
returned — completes the data to the icon signature `00 00 01 00`,
whose label `image/x-icon` begins with `image/`. -/
theorem C6_counterexample :
    isImageFile (some [0x00, 0x00, 0x01]) = .ok true ∧
    isImageFileSpec (some [0x00, 0x00, 0x01]) = .ok false ∧
    strStartsWith (detectContentType [0x00, 0x00, 0x01]) "image/" = false :=
  ⟨rfl, rfl, rfl⟩

/-- C6 (amended): the classifier reads up to the first 512 bytes into a
zero-initialized 512-byte buffer and classifies the file as image
content if and only if the content-type label derived from that whole
buffer (the read bytes, zero-padded to 512 when the file is shorter)
begins with `image/`; for files of at least 512 bytes this is exactly
the label of the first 512 bytes, as the claim states.  Files beginning
with the JPEG/PNG/GIF/WebP magic bytes classify as images — the
classifier never sees the file name, so the extension is irrelevant —
and a text file (e.g. a `.jpg` containing text) classifies as
non-image. -/
theorem C6_classifier :
    (∀ bs b, isImageFile (some bs) = .ok b →
      (b = true ↔ strStartsWith (detectContentType (sniffBuffer bs)) "image/" = true)) ∧
    (∀ bs : Bytes, 512 ≤ bs.length →
      isImageFile (some bs) = isImageFileSpec (some bs)) ∧
    isImageFile (some sampleJpeg) = .ok true ∧
    isImageFile (some samplePng) = .ok true ∧
    isImageFile (some sampleGif) = .ok true ∧
    isImageFile (some sampleWebp) = .ok true ∧
    isImageFile (some sampleText) = .ok false := by
  refine ⟨?_, ?_, rfl, rfl, rfl, rfl, rfl⟩
  · intro bs b h
    simp only [isImageFile, Except.ok.injEq] at h
    subst h
    exact Iff.rfl
  · intro bs h
    have hbuf : sniffBuffer bs = bs.take 512 := by
      unfold sniffBuffer
      rw [List.length_take]
      rw [show min 512 bs.length = 512 from min_eq_left h]
      simp
    simp only [isImageFile, isImageFileSpec, hbuf]

/-- Witness for C6: the amended equivalence evaluated on the JPEG
sample, and the ≥ 512-byte agreement on a 512-byte text file. -/
theorem C6_witness :
    (true = true ↔
      strStartsWith (detectContentType (sniffBuffer sampleJpeg)) "image/" = true) ∧
    isImageFile (some (List.replicate 512 0x41)) =
      isImageFileSpec (some (List.replicate 512 0x41)) :=
  ⟨C6_classifier.1 sampleJpeg true rfl,
   C6_classifier.2.1 (List.replicate 512 0x41)
     (by simp only [List.length_replicate]; exact le_rfl)⟩

/-! ## Claim C10 -/

/-- C10: when a job fails after the destination file was created (the
scan succeeded with a non-empty image list and creation succeeded, so
the failure arose while adding entries), the error path does not delete
the partially written destination: the path exists in the post-state,
and re-claiming the same work item later skips it as a pre-existing
destination — with a Skipped increment and an untouched filesystem —
instead of retrying the conversion. -/
theorem C10_partial_archive_skips (walk : List WalkEntry) (item : WorkItem)
    (st st' : SysState) (stats stats' : ConversionStats)
    (imgs nons : List String)
    (hA : analyzeDirectory st walk = .ok (imgs, nons))
    (h0 : imgs ≠ [])
    (hrun : processWorkItem walk true item st stats = (st', stats', Outcome.failure)) :
    existsFile st' item.OutputPath = true ∧
    ∀ (walk2 : List WalkEntry) (createOk2 : Bool) (stats2 : ConversionStats),
      processWorkItem walk2 createOk2 item st' stats2 =
        (st', { stats2 with Skipped := stats2.Skipped + 1 }, Outcome.skipped) := by
  have hstep : ∃ entries,
      st' = setFile st item.OutputPath (FileData.zipArchive entries) := by
    by_cases he : existsFile st item.OutputPath
    · exfalso
      have hskip : processWorkItem walk true item st stats =
          (st, { stats with Skipped := stats.Skipped + 1 }, Outcome.skipped) := by
        simp [processWorkItem, he]
      rw [hskip] at hrun
      exact Outcome.noConfusion (congrArg (fun x => x.2.2) hrun)
    · have hc1 : (convertToCBZ walk true item.SourcePath item.OutputPath st).1 =
          setFile st item.OutputPath
            (FileData.zipArchive (addAll st item.SourcePath imgs []).1) := by
        simp only [convertToCBZ, hA, if_neg h0]
        rw [if_neg (by simp)]
        rcases hb : addAll st item.SourcePath imgs [] with ⟨entries, err⟩
        cases err <;> rfl
      rcases hc : convertToCBZ walk true item.SourcePath item.OutputPath st with ⟨st1, r⟩
      rw [hc] at hc1
      cases r with
      | ok n =>
        have hsucc : processWorkItem walk true item st stats =
            (st1, { stats with
                      Success := stats.Success + 1,
                      NonImageFiles := stats.NonImageFiles + n }, Outcome.success) := by
          simp [processWorkItem, he, hc]
        rw [hsucc] at hrun
        exact Outcome.noConfusion (congrArg (fun x => x.2.2) hrun)
      | error e =>
        have hfail : processWorkItem walk true item st stats =
            (st1, { stats with Errors := stats.Errors + 1 }, Outcome.failure) := by
          simp [processWorkItem, he, hc]
        rw [hfail] at hrun
        simp only [Prod.mk.injEq] at hrun
        obtain ⟨hst, _⟩ := hrun
        exact ⟨(addAll st item.SourcePath imgs []).1, hst ▸ hc1⟩
  obtain ⟨entries, hst2⟩ := hstep
  have hex : existsFile st' item.OutputPath = true := by
    rw [hst2]
    simp [existsFile, setFile, List.lookup]
  refine ⟨hex, ?_⟩
  intro walk2 createOk2 stats2
  simp [processWorkItem, hex]

/-- Witness for C10: a job over an unreadable source file fails while
adding the first entry, leaves `out/A.cbz` (with the entries flushed so
far) on disk, and any later claim of the same item skips. -/
theorem C10_witness :
    existsFile [("out/A.cbz", FileData.zipArchive [])] "out/A.cbz" = true ∧
    ∀ (walk2 : List WalkEntry) (createOk2 : Bool) (stats2 : ConversionStats),
      processWorkItem walk2 createOk2 ⟨"A", "in/A", "out/A.cbz"⟩
          [("out/A.cbz", FileData.zipArchive [])] stats2 =
        ([("out/A.cbz", FileData.zipArchive [])],
          { stats2 with Skipped := stats2.Skipped + 1 }, Outcome.skipped) :=
  C10_partial_archive_skips [WalkEntry.file "in/A/p1"] ⟨"A", "in/A", "out/A.cbz"⟩
    [] [("out/A.cbz", FileData.zipArchive [])] ⟨1, 0, 0, 0, 0⟩ ⟨1, 0, 1, 0, 0⟩
    ["in/A/p1"] [] rfl (by simp) rfl
